import Mathlib

/-!
Shallow embedding of the WIKTAC node agent
(`src/wiktac-node-agent/image-src/wiktac_agent/wiktac_agent.py`, v0.1.2,
whose `classify`, `docker_restart`, `load_state` and allowlist handling are
shared verbatim with `src/wiktac-node-agent/agent/wiktac_agent/wiktac_agent.py`,
v0.1.1; the v0.1.1 helper `push` is embedded as well).

The agent's persistent state is a JSON document, so we model JSON values
explicitly; Python dicts become insertion-ordered association lists.  The
Docker proxy is modelled as an oracle: an `Except`-valued result for the
container listing and a function from container id to restart outcome.
Exceptions become `Except` results; since Python mutates the state dict in
place, an exception raised mid-tick carries the state as mutated so far.
-/

set_option autoImplicit false

namespace Wiktac

/-- JSON values; Python dicts are insertion-ordered association lists. -/
inductive JVal where
  | null
  | jbool (b : Bool)
  | jint (n : Int)
  | jstr (s : String)
  | jarr (xs : List JVal)
  | jobj (kvs : List (String × JVal))

/-- An insertion-ordered string-keyed dictionary (a Python `dict`). -/
abbrev Dict := List (String × JVal)

/-- `d[k]` lookup returning the first binding for `k`. -/
def getKey? (d : Dict) (k : String) : Option JVal :=
  match d with
  | [] => none
  | (k', v) :: rest => if k' = k then some v else getKey? rest k

/-- Python `d[k] = v`: update in place when the key exists (keeping its
position), otherwise append the new binding at the end. -/
def setKey (d : Dict) (k : String) (v : JVal) : Dict :=
  match d with
  | [] => [(k, v)]
  | (k', v') :: rest =>
      if k' = k then (k, v) :: rest else (k', v') :: setKey rest k v

/-- Python `d.setdefault(k, v)`: insert `(k, v)` at the end when `k` is
absent, otherwise leave `d` unchanged. -/
def setdefault (d : Dict) (k : String) (v : JVal) : Dict :=
  if (getKey? d k).isSome then d else d ++ [(k, v)]

/-- Python `xs[-n:]`: the last `n` elements (all of them when `xs` is
shorter). -/
def takeLast {α : Type} (n : Nat) (xs : List α) : List α :=
  xs.drop (xs.length - n)

/-- `chStarts hay key` is true when `key` is a leading subsequence of
`hay` (character-list version of string startswith). -/
def chStarts : List Char → List Char → Bool
  | _, [] => true
  | [], _ :: _ => false
  | a :: as, b :: bs => a == b && chStarts as bs

/-- `chSub hay key` is true when `key` occurs contiguously inside `hay`
(character-list version of Python's `key in hay`). -/
def chSub : List Char → List Char → Bool
  | [], key => chStarts [] key
  | a :: as, key => chStarts (a :: as) key || chSub as key

/-- Python's `key in s` substring test. -/
def strHas (s key : String) : Bool :=
  chSub s.data key.data

/-- Python `str.lower()`, character-wise (the agent only compares against
ASCII keywords). -/
def lowerStr (s : String) : String :=
  String.mk (s.data.map Char.toLower)

/-- A Docker container listing entry, with the fields the agent reads
(`Id`, `Names`, `Image`, `State`, `Status`); each is `Option`-valued to
model `c.get(...)` on a dict that may lack the key. -/
structure Container where
  Id : Option String
  Names : Option (List String)
  Image : Option String
  State : Option String
  Status : Option String
  deriving DecidableEq, Repr

/-- `(c.get("Names") or [""])[0].lower()`: the first name, lower-cased;
`None` or an empty list falls back to `""`. -/
def nameLower (c : Container) : String :=
  lowerStr (match c.Names with
            | some (n :: _) => n
            | _ => "")

/-- `(c.get("Image") or "").lower()`. -/
def imgLower (c : Container) : String :=
  lowerStr (c.Image.getD "")

/-- The body of `pick`'s loop test:
`any(k in name for k in keys) or any(k in img for k in keys)`. -/
def matchesKeys (keys : List String) (c : Container) : Bool :=
  keys.any (fun k => strHas (nameLower c) k) ||
  keys.any (fun k => strHas (imgLower c) k)

/-- `pick(keys)`: the first container whose lower-cased first name or
image contains one of the keywords. -/
def pick (containers : List Container) (keys : List String) : Option Container :=
  containers.find? (matchesKeys keys)

/-- The result of `classify`: one optional container per role. -/
structure Roles where
  btc : Option Container
  bch : Option Container
  dgb : Option Container
  miningcore : Option Container
  deriving DecidableEq, Repr

/-- `classify(containers)` from the source. -/
def classify (containers : List Container) : Roles :=
  { btc := pick containers ["bitcoin", "bitcoind", "bitcoin-node"]
    bch := pick containers ["bch", "bitcoincash", "bitcoin-cash", "bchn"]
    dgb := pick containers ["digibyte", "dgb"]
    miningcore := pick containers ["miningcore"] }

/-- The keyword list `classify` uses for each role (`[]` for an unknown
role name). -/
def roleKeys (role : String) : List String :=
  if role = "btc" then ["bitcoin", "bitcoind", "bitcoin-node"]
  else if role = "bch" then ["bch", "bitcoincash", "bitcoin-cash", "bchn"]
  else if role = "dgb" then ["digibyte", "dgb"]
  else if role = "miningcore" then ["miningcore"]
  else []

/-- `roles.get(k)` on the dict literal `classify` returns. -/
def roleOf (r : Roles) (role : String) : Option Container :=
  if role = "btc" then r.btc
  else if role = "bch" then r.bch
  else if role = "dgb" then r.dgb
  else if role = "miningcore" then r.miningcore
  else none

/-! ### Allowlist -/

/-- A Python `Dict[str, List[str]]` as pydantic validates it. -/
abbrev AllowData := List (String × List String)

/-- The pydantic `Allowlist` model: three `Dict[str, List[str]]` fields,
each defaulting to an `allowed_addresses` entry holding an empty list. -/
structure Allowlist where
  btc : AllowData
  bch : AllowData
  dgb : AllowData
  deriving DecidableEq, Repr

/-- The `Field(default_factory=...)` value of each `Allowlist` field. -/
def allowDefault : AllowData := [("allowed_addresses", [])]

/-- `Allowlist()` with every field defaulted. -/
def allowlistDefault : Allowlist :=
  { btc := allowDefault, bch := allowDefault, dgb := allowDefault }

/-- `d.get(k)` on an `AllowData` dict. -/
def getAllow? (d : AllowData) (k : String) : Option (List String) :=
  match d with
  | [] => none
  | (k', v) :: rest => if k' = k then some v else getAllow? rest k

/-- `has_allowlist(a)` from the source: true when any of the three
`allowed_addresses` lists is present and non-empty (Python truthiness of
`a.btc.get("allowed_addresses")`). -/
def has_allowlist (a : Allowlist) : Bool :=
  !((getAllow? a.btc "allowed_addresses").getD []).isEmpty ||
  !((getAllow? a.bch "allowed_addresses").getD []).isEmpty ||
  !((getAllow? a.dgb "allowed_addresses").getD []).isEmpty

/-- Python truthiness of a JSON value (`bool(v)`). -/
def truthy : JVal → Bool
  | .null => false
  | .jbool b => b
  | .jint n => n != 0
  | .jstr s => !s.isEmpty
  | .jarr xs => !xs.isEmpty
  | .jobj kvs => !kvs.isEmpty

/-- Validation of a single JSON value as `List[str]`. -/
def validStrList : JVal → Option (List String)
  | .jarr xs =>
      xs.foldr (fun x acc =>
        match x, acc with
        | .jstr s, some rest => some (s :: rest)
        | _, _ => none) (some [])
  | _ => none

/-- Validation of a single JSON value as `Dict[str, List[str]]`. -/
def validAllowData : JVal → Option AllowData
  | .jobj kvs =>
      kvs.foldr (fun kv acc =>
        match validStrList kv.2, acc with
        | some v, some rest => some ((kv.1, v) :: rest)
        | _, _ => none) (some [])
  | _ => none

/-- Validation of one `Allowlist` field: an absent key takes the default,
a present key must validate as `Dict[str, List[str]]`. -/
def validField (kvs : Dict) (name : String) : Option AllowData :=
  match getKey? kvs name with
  | none => some allowDefault
  | some v => validAllowData v

/-- `Allowlist.model_validate(payload)`: the payload must be a dict;
extra keys are ignored; each of `btc`/`bch`/`dgb`, when present, must be
a `Dict[str, List[str]]`.  `none` models a raised `ValidationError`. -/
def model_validate (payload : JVal) : Option Allowlist :=
  match payload with
  | .jobj kvs =>
      match validField kvs "btc", validField kvs "bch", validField kvs "dgb" with
      | some b, some h, some d => some { btc := b, bch := h, dgb := d }
      | _, _, _ => none
  | _ => none

/-- `a.model_dump()` as a JSON document. -/
def model_dump (a : Allowlist) : JVal :=
  .jobj [("btc", .jobj (a.btc.map (fun kv => (kv.1, .jarr (kv.2.map .jstr))))),
         ("bch", .jobj (a.bch.map (fun kv => (kv.1, .jarr (kv.2.map .jstr))))),
         ("dgb", .jobj (a.dgb.map (fun kv => (kv.1, .jarr (kv.2.map .jstr)))))]

/-- A stored file, as the loaders see it: `none` when the file is absent,
`some none` when reading or parsing it raises, `some (some v)` when it
parses to the JSON/YAML document `v`. -/
abbrev FileContent := Option (Option JVal)

/-- `load_allowlist()` from the source: default on a missing file; the
parsed document (with Python's `data or {}` falsy fallback) validated,
and default again when parsing or validation raises. -/
def load_allowlist (file : FileContent) : Allowlist :=
  match file with
  | none => allowlistDefault
  | some none => allowlistDefault
  | some (some v) =>
      match model_validate (if truthy v then v else .jobj []) with
      | some a => a
      | none => allowlistDefault

/-- `save_allowlist(a)`: the file afterwards stores the YAML dump of
`a.model_dump()` (YAML serialisation is modelled as faithful storage of
the dumped document). -/
def save_allowlist (a : Allowlist) : FileContent :=
  some (some (model_dump a))

/-! ### State file -/

/-- The fresh default state both versions of `load_state` return. -/
def defaultState : Dict :=
  [("last_run", .null), ("intel", .jobj []), ("actions", .jarr []), ("alerts", .jarr [])]

/-- `load_state()` from the source: the default when the file is absent
or reading/parsing raises, otherwise whatever JSON the file holds. -/
def load_state (file : FileContent) : JVal :=
  match file with
  | none => .jobj defaultState
  | some none => .jobj defaultState
  | some (some v) => v

/-! ### Docker proxy calls -/

/-- `docker_restart(container_id)` given the HTTP response `(status,
text)` of the restart POST: raises unless the status is 204 or 304. -/
def docker_restart (container_id : String) (status : Nat) (text : String) :
    Except String Unit :=
  if status = 204 || status = 304 then Except.ok ()
  else Except.error ("Restart failed: " ++ toString status ++ " " ++ text ++
    " (container " ++ container_id ++ ")")

/-! ### Exceptions and log helpers -/

/-- The exceptions a tick can raise, with `msg` the `str(e)` the handler
records. -/
inductive Exc where
  | listFail (e : String)
  | keyError (k : String)
  | typeError (m : String)
  | attrError (m : String)
  | restartFail (cid e : String)
  deriving DecidableEq, Repr

/-- `str(e)` as used in the error alert's meta. -/
def Exc.msg : Exc → String
  | .listFail e => e
  | .keyError k => "'" ++ k ++ "'"
  | .typeError m => m
  | .attrError m => m
  | .restartFail _ e => e

/-- The entry `action_log` appends. -/
def actionEntry (now : Int) (kind : String) (details : JVal) : JVal :=
  .jobj [("ts", .jint now), ("kind", .jstr kind), ("details", details)]

/-- `action_log(state, kind, details)` (v0.1.2): `setdefault` then append
then truncate to the last 200; raises when `actions` holds a non-list. -/
def action_log (st : Dict) (kind : String) (details : JVal) (now : Int) :
    Except Exc Dict :=
  match getKey? (setdefault st "actions" (.jarr [])) "actions" with
  | some (.jarr xs) =>
      Except.ok (setKey (setdefault st "actions" (.jarr [])) "actions"
        (.jarr (takeLast 200 (xs ++ [actionEntry now kind details]))))
  | _ => Except.error (.attrError "actions object has no attribute append")

/-- The entry `alert` appends (with the `meta or {}` falsy fallback). -/
def alertEntry (now : Int) (level msg : String) (meta : JVal) : JVal :=
  .jobj [("ts", .jint now), ("level", .jstr level), ("msg", .jstr msg),
         ("meta", if truthy meta then meta else .jobj [])]

/-- `alert(state, level, msg, meta)` (v0.1.2): `setdefault` then append
then truncate to the last 200; raises when `alerts` holds a non-list. -/
def alert (st : Dict) (level msg : String) (meta : JVal) (now : Int) :
    Except Exc Dict :=
  match getKey? (setdefault st "alerts" (.jarr [])) "alerts" with
  | some (.jarr xs) =>
      Except.ok (setKey (setdefault st "alerts" (.jarr [])) "alerts"
        (.jarr (takeLast 200 (xs ++ [alertEntry now level msg meta]))))
  | _ => Except.error (.attrError "alerts object has no attribute append")

/-- `push(state, key, item)` (v0.1.1): the generic form of the same
append-and-truncate helper. -/
def push (st : Dict) (key : String) (item : JVal) : Except Exc Dict :=
  match getKey? (setdefault st key (.jarr [])) key with
  | some (.jarr xs) =>
      Except.ok (setKey (setdefault st key (.jarr [])) key
        (.jarr (takeLast 200 (xs ++ [item]))))
  | _ => Except.error (.attrError "object has no attribute append")

/-! ### The reconciliation tick -/

/-- One invocation of `docker_restart` during a tick: the loop role `k`
it was issued for and the container id passed. -/
structure RCall where
  role : String
  cid : String
  deriving DecidableEq, Repr

/-- The invocations of `docker_restart` a tick performed, in order. -/
abbrev Trace := List RCall

/-- The tick's environment: the module globals `ARMED_MODE` and
`FAILSAFE_STOP_MINING`, the allowlist `load_allowlist()` returns, the
outcome of `docker_list_containers()` and of each `docker_restart(cid)`
(both awaited HTTP calls, modelled as oracles), and `int(time.time())`. -/
structure Env where
  armed : Bool
  failsafe : Bool
  allow : Allowlist
  listRes : Except String (List Container)
  restartRes : String → Except String Unit
  now : Int

/-- A raised exception, together with the state dict and restart trace as
they stood at the raise (Python mutates the dict in place, so the handler
sees every mutation made before the raise). -/
structure Raised where
  exc : Exc
  st : Dict
  tr : Trace

/-- `None`-aware string injection for intel entries. -/
def optStr : Option String → JVal
  | none => .null
  | some s => .jstr s

/-- `None`-aware name-list injection for intel entries. -/
def optNames : Option (List String) → JVal
  | none => .null
  | some ns => .jarr (ns.map .jstr)

/-- The `state["intel"]["containers"]` snapshot the tick stores. -/
def containersIntel (cs : List Container) : JVal :=
  .jarr (cs.map (fun c =>
    .jobj [("id", optStr c.Id), ("names", optNames c.Names),
           ("image", optStr c.Image), ("state", optStr c.State),
           ("status", optStr c.Status)]))

/-- One entry of the `state["intel"]["roles"]` snapshot:
`{"id": (v or {}).get("Id"), "name": ((v or {}).get("Names") or [None])[0]}`. -/
def roleIntel (c? : Option Container) : JVal :=
  .jobj [("id", match c? with
                | some c => optStr c.Id
                | none => .null),
         ("name", match c? with
                  | some c => (match c.Names with
                               | some (n :: _) => .jstr n
                               | _ => .null)
                  | none => .null)]

/-- The `state["intel"]["roles"]` snapshot the tick stores. -/
def rolesIntel (r : Roles) : JVal :=
  .jobj [("btc", roleIntel r.btc), ("bch", roleIntel r.bch),
         ("dgb", roleIntel r.dgb), ("miningcore", roleIntel r.miningcore)]

/-- `state["intel"][field] = v`: raises `KeyError` when `intel` is absent
and `TypeError` when it is not a dict. -/
def intelSet (st : Dict) (field : String) (v : JVal) : Except Exc Dict :=
  match getKey? st "intel" with
  | none => Except.error (.keyError "intel")
  | some (.jobj m) => Except.ok (setKey st "intel" (.jobj (setKey m field v)))
  | some _ => Except.error (.typeError "intel value does not support item assignment")

/-- One iteration of the armed loop for role `k` with classified
container `c?` (`if not c: continue`; a falsy `{}` container also has no
`State`, so skipping it coincides with the `State` test failing).  The
restart invocation, when reached, is appended to the trace before its
outcome is consulted. -/
def roleStep (env : Env) (st : Dict) (tr : Trace) (k : String)
    (c? : Option Container) : Except Raised (Dict × Trace) :=
  match c? with
  | none => Except.ok (st, tr)
  | some c =>
      if lowerStr (c.State.getD "") = "exited" ∨ lowerStr (c.State.getD "") = "dead" then
        if k = "miningcore" ∧ env.failsafe = true ∧ has_allowlist env.allow = false then
          match alert st "critical"
              "MiningCore present but allowlist not set. Failsafe posture active."
              (.jobj [("role", .jstr k)]) env.now with
          | Except.ok st' => Except.ok (st', tr)
          | Except.error e => Except.error ⟨e, st, tr⟩
        else
          match c.Id with
          | none => Except.error ⟨.keyError "Id", st, tr⟩
          | some cid =>
              match env.restartRes cid with
              | Except.error e => Except.error ⟨.restartFail cid e, st, tr ++ [⟨k, cid⟩]⟩
              | Except.ok _ =>
                  match action_log st "restart"
                      (.jobj [("role", .jstr k), ("id", optStr c.Id)]) env.now with
                  | Except.ok st' => Except.ok (st', tr ++ [⟨k, cid⟩])
                  | Except.error e => Except.error ⟨e, st, tr ++ [⟨k, cid⟩]⟩
      else Except.ok (st, tr)

/-- The armed loop over the remaining `(role, classified container)`
pairs, stopping at the first raise. -/
def runRoles (env : Env) :
    List (String × Option Container) → Dict → Trace → Except Raised (Dict × Trace)
  | [], st, tr => Except.ok (st, tr)
  | (k, c?) :: rest, st, tr =>
      match roleStep env st tr k c? with
      | Except.error e => Except.error e
      | Except.ok (st', tr') => runRoles env rest st' tr'

/-- The loop order `("btc","bch","dgb","miningcore")` paired with the
classified containers. -/
def rolePairs (r : Roles) : List (String × Option Container) :=
  [("btc", r.btc), ("bch", r.bch), ("dgb", r.dgb), ("miningcore", r.miningcore)]

/-- The `try:` body of `agent_tick` on an already-loaded state dict:
list containers, store both intel snapshots, run the armed loop, set
`last_run`.  An error result carries the state and trace at the raise. -/
def tickCore (env : Env) (st0 : Dict) : Except Raised (Dict × Trace) :=
  match env.listRes with
  | Except.error e => Except.error ⟨.listFail e, st0, []⟩
  | Except.ok cs =>
      match intelSet st0 "containers" (containersIntel cs) with
      | Except.error e => Except.error ⟨e, st0, []⟩
      | Except.ok st1 =>
          let roles := classify cs
          match intelSet st1 "roles" (rolesIntel roles) with
          | Except.error e => Except.error ⟨e, st1, []⟩
          | Except.ok st2 =>
              match (if env.armed then runRoles env (rolePairs roles) st2 []
                     else Except.ok (st2, [])) with
              | Except.error e => Except.error e
              | Except.ok (st3, tr) =>
                  Except.ok (setKey st3 "last_run" (.jint env.now), tr)

/-- `agent_tick()` (v0.1.2) on the value `load_state()` returned.  The
first component is `Except.ok saved` when `save_state(saved)` runs and
`Except.error e` when an exception escapes the handler (the error alert
itself raising, or the loaded state not being a dict) so that nothing is
saved; the second component is the trace of restart invocations. -/
def agent_tick (env : Env) (loaded : JVal) : (Except String JVal) × Trace :=
  match loaded with
  | .jobj st0 =>
      match tickCore env st0 with
      | Except.ok (st', tr) => (Except.ok (.jobj st'), tr)
      | Except.error r =>
          match alert r.st "error" "Agent tick failed."
              (.jobj [("error", .jstr r.exc.msg)]) env.now with
          | Except.ok st'' => (Except.ok (.jobj st''), r.tr)
          | Except.error e2 => (Except.error e2.msg, r.tr)
  | _ => (Except.error "state object has no attribute setdefault", [])

/-! ### HTTP surface -/

/-- `GET /api/state` returns `load_state()`. -/
def api_state (file : FileContent) : JVal :=
  load_state file

/-- `GET /api/allowlist` returns `load_allowlist().model_dump()`. -/
def api_get_allowlist (file : FileContent) : JVal :=
  model_dump (load_allowlist file)

/-- Whether a JSON document has the shape of the agent's state: a dict
with the four top-level keys of the fresh default state. -/
def stateShaped (v : JVal) : Bool :=
  match v with
  | .jobj kvs =>
      (getKey? kvs "last_run").isSome && (getKey? kvs "intel").isSome &&
      (getKey? kvs "actions").isSome && (getKey? kvs "alerts").isSome
  | _ => false

/-! ### Dictionary lemmas -/

theorem getKey?_setKey_self (d : Dict) (k : String) (v : JVal) :
    getKey? (setKey d k v) k = some v := by
  induction d with
  | nil => simp [setKey, getKey?]
  | cons hd tl ih =>
      obtain ⟨k', v'⟩ := hd
      by_cases h : k' = k
      · simp [setKey, getKey?, h]
      · simp [setKey, getKey?, h, ih]

theorem getKey?_setKey_ne (d : Dict) {k k' : String} (h : k' ≠ k) (v : JVal) :
    getKey? (setKey d k v) k' = getKey? d k' := by
  induction d with
  | nil => simp [setKey, getKey?, Ne.symm h]
  | cons hd tl ih =>
      obtain ⟨k₀, v₀⟩ := hd
      by_cases h₀ : k₀ = k
      · subst h₀
        simp [setKey, getKey?, Ne.symm h]
      · simp only [setKey, if_neg h₀, getKey?]
        by_cases h₁ : k₀ = k'
        · simp [h₁]
        · simp [h₁, ih]

theorem getKey?_append_of_none {d : Dict} {k : String} (e : Dict)
    (h : getKey? d k = none) : getKey? (d ++ e) k = getKey? e k := by
  induction d with
  | nil => simp
  | cons hd tl ih =>
      obtain ⟨k', v'⟩ := hd
      by_cases h' : k' = k
      · simp [getKey?, h'] at h
      · simp only [getKey?, if_neg h'] at h
        simpa [getKey?, h'] using ih h

theorem getKey?_append_of_some {d : Dict} {k : String} {v : JVal} (e : Dict)
    (h : getKey? d k = some v) : getKey? (d ++ e) k = some v := by
  induction d with
  | nil => simp [getKey?] at h
  | cons hd tl ih =>
      obtain ⟨k', v'⟩ := hd
      by_cases h' : k' = k
      · simp_all [getKey?]
      · simp only [getKey?, if_neg h'] at h ⊢
        exact ih h

/-- The key currently holds the list `xs` (an absent key counts as the
empty list, matching `setdefault(key, [])`). -/
def listAt (st : Dict) (key : String) (xs : List JVal) : Prop :=
  getKey? st key = some (.jarr xs) ∨ (getKey? st key = none ∧ xs = [])

theorem setdefault_listAt {st : Dict} {key : String} {xs : List JVal}
    (h : listAt st key xs) :
    getKey? (setdefault st key (.jarr [])) key = some (.jarr xs) ∧
    ∀ k, k ≠ key → getKey? (setdefault st key (.jarr [])) k = getKey? st k := by
  rcases h with h | ⟨h, rfl⟩
  · refine ⟨?_, ?_⟩
    · simp [setdefault, h]
    · intro k _
      simp [setdefault, h]
  · refine ⟨?_, ?_⟩
    · rw [setdefault, h]
      simp only [Option.isSome_none, Bool.false_eq_true, if_false]
      rw [getKey?_append_of_none _ h]
      simp [getKey?]
    · intro k hk
      rw [setdefault, h]
      simp only [Option.isSome_none, Bool.false_eq_true, if_false]
      by_cases hcase : getKey? st k = none
      · rw [getKey?_append_of_none _ hcase, hcase]
        simp [getKey?, Ne.symm hk]
      · obtain ⟨v, hv⟩ := Option.ne_none_iff_exists'.mp hcase
        rw [getKey?_append_of_some _ hv, hv]

/-! ### takeLast lemmas -/

theorem takeLast_length {α : Type} (n : Nat) (xs : List α) :
    (takeLast n xs).length = min xs.length n := by
  simp [takeLast]
  omega

theorem takeLast_is_suffix {α : Type} (n : Nat) (xs : List α) :
    (takeLast n xs) <:+ xs :=
  List.drop_suffix _ _

theorem takeLast_append_one {α : Type} (n : Nat) (xs : List α) (e : α) :
    takeLast (n + 1) (xs ++ [e]) = takeLast n xs ++ [e] := by
  unfold takeLast
  rw [List.length_append]
  simp only [List.length_singleton]
  rw [List.drop_append_of_le_length (by omega)]
  have hlen : xs.length + 1 - (n + 1) = xs.length - n := by omega
  rw [hlen]

/-! ### C10 -/

/-- C10: `docker_restart` raises if and only if the restart POST's HTTP
status code is neither 204 nor 304; for 204 and 304 it returns normally. -/
theorem docker_restart_error_iff (cid : String) (status : Nat) (text : String) :
    (∃ e, docker_restart cid status text = Except.error e) ↔
      ¬ (status = 204 ∨ status = 304) := by
  by_cases h4 : status = 204 <;> by_cases h3 : status = 304 <;>
    simp [docker_restart, h4, h3]

/-! ### C8 -/

/-- C8 counterexample: a state file holding the JSON document `[]` parses
successfully, so `load_state` returns it unchanged and `GET /api/state`
serves a document that is not state-shaped (the fresh default state is). -/
theorem load_state_not_shaped_cex :
    api_state (some (some (.jarr []))) = .jarr [] ∧
    stateShaped (api_state (some (some (.jarr [])))) = false ∧
    stateShaped (.jobj defaultState) = true :=
  ⟨rfl, rfl, rfl⟩

/-- C8 (amended): `load_state` never raises; it returns the fresh default
state when the state file is absent or fails to parse, and returns the
parsed document unchanged otherwise, so `GET /api/state` always succeeds —
with a state-shaped document exactly when the parsed file is itself
state-shaped. -/
theorem load_state_total_default :
    api_state none = .jobj defaultState ∧
    api_state (some none) = .jobj defaultState ∧
    (∀ v, api_state (some (some v)) = v) ∧
    stateShaped (.jobj defaultState) = true :=
  ⟨rfl, rfl, fun _ => rfl, rfl⟩

/-! ### C7 -/

theorem validStrList_map (l : List String) :
    validStrList (.jarr (l.map .jstr)) = some l := by
  induction l with
  | nil => rfl
  | cons a as ih =>
      have ih' := ih
      simp only [validStrList] at ih' ⊢
      simp only [List.map_cons, List.foldr_cons]
      rw [ih']

theorem validAllowData_dump (d : AllowData) :
    validAllowData (.jobj (d.map (fun kv => (kv.1, .jarr (kv.2.map .jstr))))) = some d := by
  induction d with
  | nil => rfl
  | cons kv rest ih =>
      have ih' := ih
      simp only [validAllowData] at ih' ⊢
      simp only [List.map_cons, List.foldr_cons]
      rw [ih', validStrList_map]

theorem model_validate_dump (a : Allowlist) :
    model_validate (model_dump a) = some a := by
  obtain ⟨b, h, d⟩ := a
  simp [model_dump, model_validate, validField, getKey?, validAllowData_dump]

/-- C7: `save_allowlist` followed by `load_allowlist` is the identity on
validated `Allowlist` values: for every payload `POST /api/allowlist`
accepts as the allowlist `a`, a subsequent `GET /api/allowlist` with no
intervening write returns `a.model_dump()`. -/
theorem allowlist_save_load_roundtrip (payload : JVal) (a : Allowlist)
    (hacc : model_validate payload = some a) :
    load_allowlist (save_allowlist a) = a ∧
    api_get_allowlist (save_allowlist a) = model_dump a := by
  have hload : load_allowlist (save_allowlist a) = a := by
    simp only [load_allowlist, save_allowlist]
    have htr : truthy (model_dump a) = true := by
      simp [truthy, model_dump]
    rw [htr]
    simp only [if_true]
    rw [model_validate_dump]
  exact ⟨hload, by rw [api_get_allowlist, hload]⟩

/-- C7 witness at the default allowlist, which its own dump validates
back to. -/
theorem allowlist_save_load_roundtrip_witness :
    model_validate (model_dump allowlistDefault) = some allowlistDefault ∧
    (load_allowlist (save_allowlist allowlistDefault) = allowlistDefault ∧
     api_get_allowlist (save_allowlist allowlistDefault) = model_dump allowlistDefault) :=
  ⟨by decide,
   allowlist_save_load_roundtrip (model_dump allowlistDefault) allowlistDefault (by decide)⟩

/-! ### C3 -/

theorem isSuffix_append_same {α : Type} {ys xs : List α} (h : ys <:+ xs)
    (e : List α) : (ys ++ e) <:+ (xs ++ e) := by
  obtain ⟨t, rfl⟩ := h
  exact ⟨t, (List.append_assoc t ys e).symm⟩

/-- What one append-and-truncate call leaves behind: the helper returns a
state whose `key` list is the previous contents truncated to the most
recent 199 followed by the new entry — a suffix of the appended list, of
length `min (old + 1) 200` and never above 200 — and every other key is
untouched. -/
def ringAfter (res : Except Exc Dict) (key : String) (xs : List JVal)
    (entry : JVal) (st : Dict) : Prop :=
  ∃ st', res = Except.ok st' ∧
    getKey? st' key = some (.jarr (takeLast 199 xs ++ [entry])) ∧
    (takeLast 199 xs ++ [entry]).length ≤ 200 ∧
    (takeLast 199 xs ++ [entry]).length = min (xs.length + 1) 200 ∧
    ((takeLast 199 xs ++ [entry]) <:+ (xs ++ [entry])) ∧
    ∀ k, k ≠ key → getKey? st' k = getKey? st k

theorem push_ringAfter (st : Dict) (key : String) (item : JVal) {xs : List JVal}
    (h : listAt st key xs) : ringAfter (push st key item) key xs item st := by
  obtain ⟨h1, h2⟩ := setdefault_listAt h
  refine ⟨setKey (setdefault st key (.jarr [])) key
      (.jarr (takeLast 200 (xs ++ [item]))), ?_, ?_, ?_, ?_, ?_, ?_⟩
  · unfold push
    rw [h1]
  · rw [getKey?_setKey_self]
    rw [show (200 : Nat) = 199 + 1 from rfl, takeLast_append_one]
  · have := takeLast_length 199 xs
    simp only [List.length_append, List.length_singleton]
    omega
  · have := takeLast_length 199 xs
    simp only [List.length_append, List.length_singleton]
    omega
  · exact isSuffix_append_same (takeLast_is_suffix 199 xs) [item]
  · intro k hk
    rw [getKey?_setKey_ne _ hk, h2 k hk]

theorem action_log_ringAfter (st : Dict) (kind : String) (details : JVal)
    (now : Int) {xs : List JVal} (h : listAt st "actions" xs) :
    ringAfter (action_log st kind details now) "actions" xs
      (actionEntry now kind details) st := by
  obtain ⟨h1, h2⟩ := setdefault_listAt h
  refine ⟨setKey (setdefault st "actions" (.jarr [])) "actions"
      (.jarr (takeLast 200 (xs ++ [actionEntry now kind details]))), ?_, ?_, ?_, ?_, ?_, ?_⟩
  · unfold action_log
    rw [h1]
  · rw [getKey?_setKey_self]
    rw [show (200 : Nat) = 199 + 1 from rfl, takeLast_append_one]
  · have := takeLast_length 199 xs
    simp only [List.length_append, List.length_singleton]
    omega
  · have := takeLast_length 199 xs
    simp only [List.length_append, List.length_singleton]
    omega
  · exact isSuffix_append_same (takeLast_is_suffix 199 xs) [actionEntry now kind details]
  · intro k hk
    rw [getKey?_setKey_ne _ hk, h2 k hk]

theorem alert_ringAfter (st : Dict) (level msg : String) (meta : JVal)
    (now : Int) {xs : List JVal} (h : listAt st "alerts" xs) :
    ringAfter (alert st level msg meta now) "alerts" xs
      (alertEntry now level msg meta) st := by
  obtain ⟨h1, h2⟩ := setdefault_listAt h
  refine ⟨setKey (setdefault st "alerts" (.jarr [])) "alerts"
      (.jarr (takeLast 200 (xs ++ [alertEntry now level msg meta]))), ?_, ?_, ?_, ?_, ?_, ?_⟩
  · unfold alert
    rw [h1]
  · rw [getKey?_setKey_self]
    rw [show (200 : Nat) = 199 + 1 from rfl, takeLast_append_one]
  · have := takeLast_length 199 xs
    simp only [List.length_append, List.length_singleton]
    omega
  · have := takeLast_length 199 xs
    simp only [List.length_append, List.length_singleton]
    omega
  · exact isSuffix_append_same (takeLast_is_suffix 199 xs) [alertEntry now level msg meta]
  · intro k hk
    rw [getKey?_setKey_ne _ hk, h2 k hk]

/-- C3: every append through `push` / `action_log` / `alert` leaves the
written list holding at most 200 entries: the previous contents truncated
to the most recent entries plus the new one, exactly the most recent 200
when the append would exceed 200 (so the bound holds after every
operation of any sequence of such appends). -/
theorem log_helpers_ring_buffer
    (stP stA stB : Dict) (key kind level msg : String)
    (item details meta : JVal) (nowA nowB : Int)
    (xp xa xb : List JVal)
    (hp : listAt stP key xp) (ha : listAt stA "actions" xa)
    (hb : listAt stB "alerts" xb) :
    ringAfter (push stP key item) key xp item stP ∧
    ringAfter (action_log stA kind details nowA) "actions" xa
      (actionEntry nowA kind details) stA ∧
    ringAfter (alert stB level msg meta nowB) "alerts" xb
      (alertEntry nowB level msg meta) stB :=
  ⟨push_ringAfter stP key item hp,
   action_log_ringAfter stA kind details nowA ha,
   alert_ringAfter stB level msg meta nowB hb⟩

/-- C3 witness: concrete appends on an empty `actions`/`alerts` state and
on a state whose `"k"` list is empty. -/
theorem log_helpers_ring_buffer_witness :
    listAt [("k", .jarr [])] "k" [] ∧ listAt [] "actions" [] ∧
    listAt [] "alerts" [] ∧
    (ringAfter (push [("k", .jarr [])] "k" .null) "k" [] .null [("k", .jarr [])] ∧
     ringAfter (action_log [] "restart" .null 3) "actions" []
       (actionEntry 3 "restart" .null) [] ∧
     ringAfter (alert [] "error" "m" .null 3) "alerts" []
       (alertEntry 3 "error" "m" .null) []) :=
  ⟨Or.inl rfl, Or.inr ⟨rfl, rfl⟩, Or.inr ⟨rfl, rfl⟩,
   log_helpers_ring_buffer [("k", .jarr [])] [] [] "k" "restart" "error" "m"
     .null .null .null 3 3 [] [] []
     (Or.inl rfl) (Or.inr ⟨rfl, rfl⟩) (Or.inr ⟨rfl, rfl⟩)⟩

/-! ### C4 -/

theorem find?_some_first {α : Type} (p : α → Bool) (l : List α) (c : α)
    (h : l.find? p = some c) :
    ∃ n, ∃ hn : n < l.length, l.get ⟨n, hn⟩ = c ∧ p c = true ∧
      ∀ m, ∀ hm : m < l.length, m < n → p (l.get ⟨m, hm⟩) = false := by
  induction l with
  | nil => simp [List.find?] at h
  | cons a as ih =>
      cases hpa : p a with
      | true =>
          rw [List.find?_cons_of_pos _ hpa] at h
          obtain rfl : a = c := by injection h
          exact ⟨0, Nat.succ_pos _, rfl, hpa,
            fun m hm hlt => absurd hlt (Nat.not_lt_zero m)⟩
      | false =>
          rw [List.find?_cons_of_neg _ (by simp [hpa])] at h
          obtain ⟨n, hn, hget, hpc, hbefore⟩ := ih h
          refine ⟨n + 1, Nat.succ_lt_succ hn, hget, hpc, ?_⟩
          intro m hm hlt
          match m with
          | 0 => exact hpa
          | Nat.succ m' =>
              exact hbefore m' (Nat.lt_of_succ_lt_succ hm) (Nat.lt_of_succ_lt_succ hlt)

theorem roleOf_classify (cs : List Container) (role : String)
    (hrole : role ∈ ["btc", "bch", "dgb", "miningcore"]) :
    roleOf (classify cs) role = cs.find? (matchesKeys (roleKeys role)) := by
  simp only [List.mem_cons, List.mem_singleton] at hrole
  rcases hrole with rfl | rfl | rfl | rfl | h
  · rfl
  · rfl
  · rfl
  · rfl
  · simp at h

/-- C4: for each of the four roles, `classify` assigns the first container
in list order whose lower-cased first name or lower-cased image contains
one of that role's keywords as a substring (every earlier container fails
that test), and `None` exactly when no container passes the test. -/
theorem classify_first_substring_match (cs : List Container) (role : String)
    (hrole : role ∈ ["btc", "bch", "dgb", "miningcore"]) :
    (∀ c, roleOf (classify cs) role = some c →
        ∃ n, ∃ hn : n < cs.length, cs.get ⟨n, hn⟩ = c ∧
          matchesKeys (roleKeys role) c = true ∧
          ∀ m, ∀ hm : m < cs.length, m < n →
            matchesKeys (roleKeys role) (cs.get ⟨m, hm⟩) = false) ∧
    (roleOf (classify cs) role = none →
        ∀ c ∈ cs, matchesKeys (roleKeys role) c = false) := by
  have hpick := roleOf_classify cs role hrole
  constructor
  · intro c hc
    exact find?_some_first _ _ _ (hpick ▸ hc)
  · intro hnone c hcmem
    have hnp := List.find?_eq_none.mp (hpick ▸ hnone) c hcmem
    simpa using hnp

/-- The two-container list used to instantiate the C4 witness. -/
def witContainers : List Container :=
  [{ Id := some "x1", Names := some ["/postgres"], Image := some "postgres:15",
     State := some "running", Status := none },
   { Id := some "x2", Names := some ["/bitcoind"], Image := some "btc-img",
     State := some "exited", Status := none }]

/-- C4 witness: on a concrete two-container list, `btc` is assigned the
second container (the first fails the substring test). -/
theorem classify_first_substring_match_witness :
    ("btc" : String) ∈ ["btc", "bch", "dgb", "miningcore"] ∧
    ((∀ c, roleOf (classify witContainers) "btc" = some c →
        ∃ n, ∃ hn : n < witContainers.length, witContainers.get ⟨n, hn⟩ = c ∧
          matchesKeys (roleKeys "btc") c = true ∧
          ∀ m, ∀ hm : m < witContainers.length, m < n →
            matchesKeys (roleKeys "btc") (witContainers.get ⟨m, hm⟩) = false) ∧
     (roleOf (classify witContainers) "btc" = none →
        ∀ c ∈ witContainers, matchesKeys (roleKeys "btc") c = false)) :=
  ⟨by decide, classify_first_substring_match witContainers "btc" (by decide)⟩

/-! ### C9 -/

/-- A single container whose name mentions Bitcoin Cash. -/
def overlapContainer : Container :=
  { Id := some "c1", Names := some ["/bitcoincash-node"], Image := some "img",
    State := some "running", Status := none }

/-- C9: role assignments are not exclusive: the container named
`/bitcoincash-node` is classified as both the `btc` role (its name
contains `"bitcoin"`) and the `bch` role (its name contains
`"bitcoincash"`). -/
theorem classify_roles_overlap :
    (classify [overlapContainer]).btc = some overlapContainer ∧
    (classify [overlapContainer]).bch = some overlapContainer := by
  decide

/-! ### Inversion and frame lemmas for the tick -/

theorem setdefault_listAt_inv {st : Dict} {key : String} {xs : List JVal}
    (hm : getKey? (setdefault st key (.jarr [])) key = some (.jarr xs)) :
    listAt st key xs := by
  unfold setdefault at hm
  by_cases hp : (getKey? st key).isSome
  · rw [if_pos hp] at hm
    exact Or.inl hm
  · rw [if_neg hp] at hm
    have hnone : getKey? st key = none := Option.not_isSome_iff_eq_none.mp hp
    rw [getKey?_append_of_none _ hnone] at hm
    simp [getKey?] at hm
    exact Or.inr ⟨hnone, hm⟩

theorem alert_ok_inv {st : Dict} {level msg : String} {meta : JVal} {now : Int}
    {st' : Dict} (h : alert st level msg meta now = Except.ok st') :
    ∃ xs, listAt st "alerts" xs ∧
      getKey? st' "alerts" =
        some (.jarr (takeLast 199 xs ++ [alertEntry now level msg meta])) ∧
      ∀ key, key ≠ "alerts" → getKey? st' key = getKey? st key := by
  unfold alert at h
  cases hm : getKey? (setdefault st "alerts" (.jarr [])) "alerts" with
  | none => rw [hm] at h; simp at h
  | some v =>
      cases v with
      | null => rw [hm] at h; simp at h
      | jbool b => rw [hm] at h; simp at h
      | jint n => rw [hm] at h; simp at h
      | jstr s => rw [hm] at h; simp at h
      | jobj kvs => rw [hm] at h; simp at h
      | jarr xs =>
          rw [hm] at h
          simp only [Except.ok.injEq] at h
          have hla := setdefault_listAt_inv hm
          obtain ⟨_, h2⟩ := setdefault_listAt hla
          refine ⟨xs, hla, ?_, ?_⟩
          · rw [← h, getKey?_setKey_self,
              show (200 : Nat) = 199 + 1 from rfl, takeLast_append_one]
          · intro key hk
            rw [← h, getKey?_setKey_ne _ hk, h2 key hk]

theorem action_log_ok_inv {st : Dict} {kind : String} {details : JVal} {now : Int}
    {st' : Dict} (h : action_log st kind details now = Except.ok st') :
    ∃ xs, listAt st "actions" xs ∧
      getKey? st' "actions" =
        some (.jarr (takeLast 199 xs ++ [actionEntry now kind details])) ∧
      ∀ key, key ≠ "actions" → getKey? st' key = getKey? st key := by
  unfold action_log at h
  cases hm : getKey? (setdefault st "actions" (.jarr [])) "actions" with
  | none => rw [hm] at h; simp at h
  | some v =>
      cases v with
      | null => rw [hm] at h; simp at h
      | jbool b => rw [hm] at h; simp at h
      | jint n => rw [hm] at h; simp at h
      | jstr s => rw [hm] at h; simp at h
      | jobj kvs => rw [hm] at h; simp at h
      | jarr xs =>
          rw [hm] at h
          simp only [Except.ok.injEq] at h
          have hla := setdefault_listAt_inv hm
          obtain ⟨_, h2⟩ := setdefault_listAt hla
          refine ⟨xs, hla, ?_, ?_⟩
          · rw [← h, getKey?_setKey_self,
              show (200 : Nat) = 199 + 1 from rfl, takeLast_append_one]
          · intro key hk
            rw [← h, getKey?_setKey_ne _ hk, h2 key hk]

theorem intelSet_ok_inv {st : Dict} {field : String} {v : JVal} {st' : Dict}
    (h : intelSet st field v = Except.ok st') :
    ∀ key, key ≠ "intel" → getKey? st' key = getKey? st key := by
  unfold intelSet at h
  cases hm : getKey? st "intel" with
  | none => rw [hm] at h; simp at h
  | some w =>
      cases w with
      | null => rw [hm] at h; simp at h
      | jbool b => rw [hm] at h; simp at h
      | jint n => rw [hm] at h; simp at h
      | jstr s => rw [hm] at h; simp at h
      | jarr xs => rw [hm] at h; simp at h
      | jobj kvs =>
          rw [hm] at h
          simp only [Except.ok.injEq] at h
          intro key hk
          rw [← h, getKey?_setKey_ne _ hk]

/-- The property a restart invocation certifies: it was issued for role
`k` whose classified container exists, carries that id, and had State
`exited` or `dead` (lower-cased). -/
def goodCall (k : String) (c? : Option Container) (call : RCall) : Prop :=
  call.role = k ∧ ∃ c, c? = some c ∧ c.Id = some call.cid ∧
    (lowerStr (c.State.getD "") = "exited" ∨ lowerStr (c.State.getD "") = "dead")

/-- The trace extension of a single role step: empty or one good call. -/
def extOK (k : String) (c? : Option Container) (ext : Trace) : Prop :=
  ext = [] ∨ ∃ call, ext = [call] ∧ goodCall k c? call

/-- Keys other than `actions` and `alerts` are untouched. -/
def frameAA (st st' : Dict) : Prop :=
  ∀ key, key ≠ "actions" → key ≠ "alerts" → getKey? st' key = getKey? st key

/-- The `alerts` key is absent or holds a list. -/
def alertsShaped (st : Dict) : Prop :=
  ∃ xs, listAt st "alerts" xs

theorem roleStep_spec (env : Env) (st : Dict) (tr : Trace) (k : String)
    (c? : Option Container) :
    (∀ st' tr', roleStep env st tr k c? = Except.ok (st', tr') →
        (∃ ext, tr' = tr ++ ext ∧ extOK k c? ext) ∧ frameAA st st' ∧
        (alertsShaped st → alertsShaped st')) ∧
    (∀ r, roleStep env st tr k c? = Except.error r →
        r.st = st ∧ ∃ ext, r.tr = tr ++ ext ∧ extOK k c? ext) := by
  cases c? with
  | none =>
      constructor
      · intro st' tr' h
        simp only [roleStep, Except.ok.injEq, Prod.mk.injEq] at h
        obtain ⟨rfl, rfl⟩ := h
        exact ⟨⟨[], by simp, Or.inl rfl⟩, fun _ _ _ => rfl, fun hs => hs⟩
      · intro r h
        simp [roleStep] at h
  | some c =>
      by_cases hstate : lowerStr (c.State.getD "") = "exited" ∨
          lowerStr (c.State.getD "") = "dead"
      · by_cases hfsb : k = "miningcore" ∧ env.failsafe = true ∧
            has_allowlist env.allow = false
        · -- failsafe branch: an alert, no restart call
          constructor
          · intro st' tr' h
            simp only [roleStep, if_pos hstate, if_pos hfsb] at h
            cases halert : alert st "critical"
                "MiningCore present but allowlist not set. Failsafe posture active."
                (.jobj [("role", .jstr k)]) env.now with
            | ok st'' =>
                rw [halert] at h
                simp only [Except.ok.injEq, Prod.mk.injEq] at h
                obtain ⟨rfl, rfl⟩ := h
                obtain ⟨xs, _, hset, hframe⟩ := alert_ok_inv halert
                refine ⟨⟨[], by simp, Or.inl rfl⟩, ?_, ?_⟩
                · intro key hk1 hk2
                  exact hframe key hk2
                · intro _
                  exact ⟨_, Or.inl hset⟩
            | error e =>
                rw [halert] at h
                simp at h
          · intro r h
            simp only [roleStep, if_pos hstate, if_pos hfsb] at h
            cases halert : alert st "critical"
                "MiningCore present but allowlist not set. Failsafe posture active."
                (.jobj [("role", .jstr k)]) env.now with
            | ok st'' => rw [halert] at h; simp at h
            | error e =>
                rw [halert] at h
                simp only [Except.error.injEq] at h
                subst h
                exact ⟨rfl, ⟨[], by simp, Or.inl rfl⟩⟩
        · -- restart branch
          cases hid : c.Id with
          | none =>
              constructor
              · intro st' tr' h
                simp [roleStep, if_pos hstate, if_neg hfsb, hid] at h
              · intro r h
                simp only [roleStep, if_pos hstate, if_neg hfsb, hid,
                  Except.error.injEq] at h
                subst h
                exact ⟨rfl, ⟨[], by simp, Or.inl rfl⟩⟩
          | some cid =>
              cases hres : env.restartRes cid with
              | error e =>
                  constructor
                  · intro st' tr' h
                    simp [roleStep, if_pos hstate, if_neg hfsb, hid, hres] at h
                  · intro r h
                    simp only [roleStep, if_pos hstate, if_neg hfsb, hid, hres,
                      Except.error.injEq] at h
                    subst h
                    exact ⟨rfl, ⟨[⟨k, cid⟩], rfl,
                      Or.inr ⟨⟨k, cid⟩, rfl, rfl, c, rfl, hid, hstate⟩⟩⟩
              | ok u =>
                  constructor
                  · intro st' tr' h
                    simp only [roleStep, if_pos hstate, if_neg hfsb, hid, hres] at h
                    cases hlog : action_log st "restart"
                        (.jobj [("role", .jstr k), ("id", optStr (some cid))]) env.now with
                    | ok st'' =>
                        rw [hlog] at h
                        simp only [Except.ok.injEq, Prod.mk.injEq] at h
                        obtain ⟨rfl, rfl⟩ := h
                        obtain ⟨xs, _, hset, hframe⟩ := action_log_ok_inv hlog
                        refine ⟨⟨[⟨k, cid⟩], rfl,
                          Or.inr ⟨⟨k, cid⟩, rfl, rfl, c, rfl, hid, hstate⟩⟩, ?_, ?_⟩
                        · intro key hk1 hk2
                          exact hframe key hk1
                        · rintro ⟨xs', hxs'⟩
                          refine ⟨xs', ?_⟩
                          rcases hxs' with hx | ⟨hx, rfl⟩
                          · exact Or.inl (by rw [hframe _ (by decide), hx])
                          · exact Or.inr ⟨by rw [hframe _ (by decide), hx], rfl⟩
                    | error e =>
                        rw [hlog] at h
                        simp at h
                  · intro r h
                    simp only [roleStep, if_pos hstate, if_neg hfsb, hid, hres] at h
                    cases hlog : action_log st "restart"
                        (.jobj [("role", .jstr k), ("id", optStr (some cid))]) env.now with
                    | ok st'' => rw [hlog] at h; simp at h
                    | error e =>
                        rw [hlog] at h
                        simp only [Except.error.injEq] at h
                        subst h
                        exact ⟨rfl, ⟨[⟨k, cid⟩], rfl,
                          Or.inr ⟨⟨k, cid⟩, rfl, rfl, c, rfl, hid, hstate⟩⟩⟩
      · -- container not exited/dead: the step is a no-op
        constructor
        · intro st' tr' h
          simp only [roleStep, if_neg hstate, Except.ok.injEq, Prod.mk.injEq] at h
          obtain ⟨rfl, rfl⟩ := h
          exact ⟨⟨[], by simp, Or.inl rfl⟩, fun _ _ _ => rfl, fun hs => hs⟩
        · intro r h
          simp [roleStep, if_neg hstate] at h

theorem alertsShaped_of_eq {st st' : Dict}
    (h : getKey? st' "alerts" = getKey? st "alerts") (hs : alertsShaped st) :
    alertsShaped st' := by
  obtain ⟨xs, hxs⟩ := hs
  rcases hxs with hx | ⟨hx, rfl⟩
  · exact ⟨xs, Or.inl (h.trans hx)⟩
  · exact ⟨[], Or.inr ⟨h.trans hx, rfl⟩⟩

theorem runRoles_spec (env : Env) (pairs : List (String × Option Container)) :
    ∀ st tr,
    (∀ st' tr', runRoles env pairs st tr = Except.ok (st', tr') →
        (∃ ext, tr' = tr ++ ext ∧
           (∀ call ∈ ext, ∃ p ∈ pairs, goodCall p.1 p.2 call) ∧
           List.Sublist (ext.map RCall.role) (pairs.map Prod.fst)) ∧
        frameAA st st' ∧ (alertsShaped st → alertsShaped st')) ∧
    (∀ r, runRoles env pairs st tr = Except.error r →
        (∃ ext, r.tr = tr ++ ext ∧
           (∀ call ∈ ext, ∃ p ∈ pairs, goodCall p.1 p.2 call) ∧
           List.Sublist (ext.map RCall.role) (pairs.map Prod.fst)) ∧
        frameAA st r.st ∧ (alertsShaped st → alertsShaped r.st)) := by
  induction pairs with
  | nil =>
      intro st tr
      constructor
      · intro st' tr' h
        simp only [runRoles, Except.ok.injEq, Prod.mk.injEq] at h
        obtain ⟨rfl, rfl⟩ := h
        exact ⟨⟨[], by simp, by simp, by simp⟩, fun _ _ _ => rfl, id⟩
      · intro r h
        simp [runRoles] at h
  | cons p rest ih =>
      intro st tr
      obtain ⟨k, c?⟩ := p
      have hmain : ∀ st1 tr1, roleStep env st tr k c? = Except.ok (st1, tr1) →
          ∀ res, runRoles env rest st1 tr1 = res →
          (∀ st' tr', res = Except.ok (st', tr') →
              (∃ ext, tr' = tr ++ ext ∧
                 (∀ call ∈ ext, ∃ p ∈ (k, c?) :: rest, goodCall p.1 p.2 call) ∧
                 List.Sublist (ext.map RCall.role) (k :: rest.map Prod.fst)) ∧
              frameAA st st' ∧ (alertsShaped st → alertsShaped st')) ∧
          (∀ r, res = Except.error r →
              (∃ ext, r.tr = tr ++ ext ∧
                 (∀ call ∈ ext, ∃ p ∈ (k, c?) :: rest, goodCall p.1 p.2 call) ∧
                 List.Sublist (ext.map RCall.role) (k :: rest.map Prod.fst)) ∧
              frameAA st r.st ∧ (alertsShaped st → alertsShaped r.st)) := by
        intro st1 tr1 hstep res hres
        obtain ⟨⟨ext1, htr1, hext1⟩, hfr1, hsh1⟩ :=
          (roleStep_spec env st tr k c?).1 st1 tr1 hstep
        subst htr1
        have hcomb : ∀ (ext2 : Trace),
            (∀ call ∈ ext2, ∃ p ∈ rest, goodCall p.1 p.2 call) →
            List.Sublist (ext2.map RCall.role) (rest.map Prod.fst) →
            ((tr ++ ext1) ++ ext2 = tr ++ (ext1 ++ ext2)) ∧
            (∀ call ∈ ext1 ++ ext2, ∃ p ∈ (k, c?) :: rest, goodCall p.1 p.2 call) ∧
            List.Sublist ((ext1 ++ ext2).map RCall.role) (k :: rest.map Prod.fst) := by
          intro ext2 hmem2 hsub2
          refine ⟨List.append_assoc tr ext1 ext2, ?_, ?_⟩
          · intro call hcall
            rcases List.mem_append.mp hcall with hc | hc
            · rcases hext1 with rfl | ⟨call0, rfl, hgood⟩
              · simp at hc
              · rw [List.mem_singleton] at hc
                subst hc
                exact ⟨(k, c?), List.mem_cons_self _ _, hgood⟩
            · obtain ⟨p, hp, hg⟩ := hmem2 call hc
              exact ⟨p, List.mem_cons_of_mem _ hp, hg⟩
          · rcases hext1 with rfl | ⟨call0, rfl, hgood⟩
            · simpa using List.Sublist.cons _ hsub2
            · simp only [List.map_append, List.map_cons, List.map_nil,
                List.nil_append, List.singleton_append]
              rw [hgood.1]
              exact List.Sublist.cons₂ _ hsub2
        constructor
        · intro st' tr' hok
          subst hres
          obtain ⟨⟨ext2, htr2, hmem2, hsub2⟩, hfr2, hsh2⟩ :=
            (ih st1 (tr ++ ext1)).1 st' tr' hok
          obtain ⟨hassoc, hmem, hsub⟩ := hcomb ext2 hmem2 hsub2
          subst htr2
          exact ⟨⟨ext1 ++ ext2, hassoc, hmem, hsub⟩,
            fun key h1 h2 => (hfr2 key h1 h2).trans (hfr1 key h1 h2),
            fun hs => hsh2 (hsh1 hs)⟩
        · intro r herr
          subst hres
          obtain ⟨⟨ext2, htr2, hmem2, hsub2⟩, hfr2, hsh2⟩ :=
            (ih st1 (tr ++ ext1)).2 r herr
          obtain ⟨hassoc, hmem, hsub⟩ := hcomb ext2 hmem2 hsub2
          rw [htr2, hassoc]
          exact ⟨⟨ext1 ++ ext2, rfl, hmem, hsub⟩,
            fun key h1 h2 => (hfr2 key h1 h2).trans (hfr1 key h1 h2),
            fun hs => hsh2 (hsh1 hs)⟩
      constructor
      · intro st' tr' h
        simp only [runRoles] at h
        cases hstep : roleStep env st tr k c? with
        | error r0 =>
            rw [hstep] at h
            simp at h
        | ok pr =>
            obtain ⟨st1, tr1⟩ := pr
            rw [hstep] at h
            exact (hmain st1 tr1 hstep _ rfl).1 st' tr' h
      · intro r h
        simp only [runRoles] at h
        cases hstep : roleStep env st tr k c? with
        | error r0 =>
            rw [hstep] at h
            simp only [Except.error.injEq] at h
            subst h
            obtain ⟨hst, ⟨ext, htr, hext⟩⟩ := (roleStep_spec env st tr k c?).2 r0 hstep
            refine ⟨⟨ext, htr, ?_, ?_⟩, ?_, ?_⟩
            · intro call hcall
              rcases hext with rfl | ⟨call0, rfl, hgood⟩
              · simp at hcall
              · rw [List.mem_singleton] at hcall
                subst hcall
                exact ⟨(k, c?), List.mem_cons_self _ _, hgood⟩
            · rcases hext with rfl | ⟨call0, rfl, hgood⟩
              · simp
              · simp only [List.map_cons, List.map_nil]
                rw [hgood.1]
                exact (List.nil_sublist _).cons₂ _
            · intro key h1 h2
              rw [hst]
            · intro hs
              rw [hst]
              exact hs
        | ok pr =>
            obtain ⟨st1, tr1⟩ := pr
            rw [hstep] at h
            exact (hmain st1 tr1 hstep _ rfl).2 r h

theorem rolePairs_mem {r : Roles} {p : String × Option Container}
    (hp : p ∈ rolePairs r) :
    p.1 ∈ ["btc", "bch", "dgb", "miningcore"] ∧ roleOf r p.1 = p.2 := by
  simp only [rolePairs, List.mem_cons, List.not_mem_nil, or_false] at hp
  rcases hp with rfl | rfl | rfl | rfl
  · exact ⟨by simp, rfl⟩
  · exact ⟨by simp, rfl⟩
  · exact ⟨by simp, rfl⟩
  · exact ⟨by simp, rfl⟩

/-- What the restart trace of a tick certifies: roles appear at most once
and in loop order, an unarmed tick restarts nothing, and every invocation
names a classified container with a crashed State. -/
def traceFacts (env : Env) (tr : Trace) : Prop :=
  List.Sublist (tr.map RCall.role) ["btc", "bch", "dgb", "miningcore"] ∧
  (env.armed = false → tr = []) ∧
  (∀ call ∈ tr, env.armed = true ∧ ∃ cs c, env.listRes = Except.ok cs ∧
      call.role ∈ ["btc", "bch", "dgb", "miningcore"] ∧
      roleOf (classify cs) call.role = some c ∧ c.Id = some call.cid ∧
      (lowerStr (c.State.getD "") = "exited" ∨ lowerStr (c.State.getD "") = "dead"))

theorem traceFacts_nil (env : Env) : traceFacts env [] :=
  ⟨by simp, fun _ => rfl, by simp⟩

theorem traceFacts_of_runRoles (env : Env) {cs : List Container} {ext : Trace}
    (hlist : env.listRes = Except.ok cs) (harm : env.armed = true)
    (hmem : ∀ call ∈ ext, ∃ p ∈ rolePairs (classify cs), goodCall p.1 p.2 call)
    (hsub : List.Sublist (ext.map RCall.role)
      ((rolePairs (classify cs)).map Prod.fst)) :
    traceFacts env ext := by
  refine ⟨hsub, ?_, ?_⟩
  · intro hf
    rw [hf] at harm
    exact absurd harm (by decide)
  · intro call hcall
    obtain ⟨p, hp, hgood⟩ := hmem call hcall
    obtain ⟨hrole_mem, hroleOf⟩ := rolePairs_mem hp
    obtain ⟨hr, c, hc2, hcid, hstate⟩ := hgood
    refine ⟨harm, cs, c, hlist, ?_, ?_, hcid, hstate⟩
    · rw [hr]
      exact hrole_mem
    · rw [hr, hroleOf, hc2]

theorem tickCore_spec (env : Env) (st0 : Dict) :
    (∀ st' tr, tickCore env st0 = Except.ok (st', tr) →
        traceFacts env tr ∧
        (∀ k, k ∉ ["last_run", "intel", "actions", "alerts"] →
            getKey? st' k = getKey? st0 k) ∧
        (alertsShaped st0 → alertsShaped st')) ∧
    (∀ r, tickCore env st0 = Except.error r →
        traceFacts env r.tr ∧
        (∀ k, k ∉ ["intel", "actions", "alerts"] →
            getKey? r.st k = getKey? st0 k) ∧
        (alertsShaped st0 → alertsShaped r.st)) := by
  cases hlist : env.listRes with
  | error e =>
      constructor
      · intro st' tr h
        simp [tickCore, hlist] at h
      · intro r h
        simp only [tickCore, hlist, Except.error.injEq] at h
        subst h
        exact ⟨traceFacts_nil env, fun _ _ => rfl, id⟩
  | ok cs =>
      cases hi1 : intelSet st0 "containers" (containersIntel cs) with
      | error e1 =>
          constructor
          · intro st' tr h
            simp [tickCore, hlist, hi1] at h
          · intro r h
            simp only [tickCore, hlist, hi1, Except.error.injEq] at h
            subst h
            exact ⟨traceFacts_nil env, fun _ _ => rfl, id⟩
      | ok st1 =>
          have hfr1 := intelSet_ok_inv hi1
          cases hi2 : intelSet st1 "roles" (rolesIntel (classify cs)) with
          | error e2 =>
              constructor
              · intro st' tr h
                simp [tickCore, hlist, hi1, hi2] at h
              · intro r h
                simp only [tickCore, hlist, hi1, hi2, Except.error.injEq] at h
                subst h
                refine ⟨traceFacts_nil env, ?_, ?_⟩
                · intro k hk
                  simp only [List.mem_cons, List.not_mem_nil, or_false] at hk
                  push_neg at hk
                  exact hfr1 k hk.1
                · exact alertsShaped_of_eq (hfr1 "alerts" (by decide))
          | ok st2 =>
              have hfr2 := intelSet_ok_inv hi2
              cases harm : env.armed with
              | false =>
                  constructor
                  · intro st' tr h
                    simp only [tickCore, hlist, hi1, hi2, harm,
                      Bool.false_eq_true, if_false, Except.ok.injEq,
                      Prod.mk.injEq] at h
                    obtain ⟨rfl, rfl⟩ := h
                    refine ⟨traceFacts_nil env, ?_, ?_⟩
                    · intro k hk
                      simp only [List.mem_cons, List.not_mem_nil, or_false] at hk
                      push_neg at hk
                      rw [getKey?_setKey_ne st2 hk.1 _, hfr2 k hk.2.1,
                        hfr1 k hk.2.1]
                    · refine alertsShaped_of_eq ?_
                      rw [getKey?_setKey_ne st2 (by decide) _,
                        hfr2 "alerts" (by decide), hfr1 "alerts" (by decide)]
                  · intro r h
                    simp [tickCore, hlist, hi1, hi2, harm] at h
              | true =>
                  cases hrun : runRoles env (rolePairs (classify cs)) st2 [] with
                  | ok pr =>
                      obtain ⟨st3, tr3⟩ := pr
                      constructor
                      · intro st' tr h
                        simp only [tickCore, hlist, hi1, hi2, harm, if_true,
                          hrun, Except.ok.injEq, Prod.mk.injEq] at h
                        obtain ⟨rfl, rfl⟩ := h
                        obtain ⟨⟨ext, htr, hmem, hsub⟩, hfrR, hshR⟩ :=
                          (runRoles_spec env (rolePairs (classify cs)) st2 []).1
                            st3 tr3 hrun
                        rw [List.nil_append] at htr
                        subst htr
                        refine ⟨traceFacts_of_runRoles env hlist harm hmem hsub,
                          ?_, ?_⟩
                        · intro k hk
                          simp only [List.mem_cons, List.not_mem_nil, or_false] at hk
                          push_neg at hk
                          rw [getKey?_setKey_ne st3 hk.1 _,
                            hfrR k hk.2.2.1 hk.2.2.2, hfr2 k hk.2.1, hfr1 k hk.2.1]
                        · intro hs
                          refine alertsShaped_of_eq
                            (getKey?_setKey_ne st3 (by decide) _) ?_
                          refine hshR ?_
                          refine alertsShaped_of_eq ?_ hs
                          rw [hfr2 "alerts" (by decide), hfr1 "alerts" (by decide)]
                      · intro r h
                        simp [tickCore, hlist, hi1, hi2, harm, hrun] at h
                  | error r0 =>
                      constructor
                      · intro st' tr h
                        simp [tickCore, hlist, hi1, hi2, harm, hrun] at h
                      · intro r h
                        simp only [tickCore, hlist, hi1, hi2, harm, if_true,
                          hrun, Except.error.injEq] at h
                        subst h
                        obtain ⟨⟨ext, htr, hmem, hsub⟩, hfrR, hshR⟩ :=
                          (runRoles_spec env (rolePairs (classify cs)) st2 []).2
                            r0 hrun
                        rw [List.nil_append] at htr
                        refine ⟨?_, ?_, ?_⟩
                        · rw [htr]
                          exact traceFacts_of_runRoles env hlist harm hmem hsub
                        · intro k hk
                          simp only [List.mem_cons, List.not_mem_nil, or_false] at hk
                          push_neg at hk
                          rw [hfrR k hk.2.1 hk.2.2, hfr2 k hk.1, hfr1 k hk.1]
                        · intro hs
                          refine hshR ?_
                          refine alertsShaped_of_eq ?_ hs
                          rw [hfr2 "alerts" (by decide), hfr1 "alerts" (by decide)]

theorem agent_tick_traceFacts (env : Env) (loaded : JVal) :
    traceFacts env (agent_tick env loaded).2 := by
  cases loaded with
  | jobj st0 =>
      cases htc : tickCore env st0 with
      | ok pr =>
          obtain ⟨st', tr⟩ := pr
          have hspec := (tickCore_spec env st0).1 st' tr htc
          have heq : (agent_tick env (.jobj st0)).2 = tr := by
            simp [agent_tick, htc]
          rw [heq]
          exact hspec.1
      | error r =>
          have hspec := (tickCore_spec env st0).2 r htc
          have heq : (agent_tick env (.jobj st0)).2 = r.tr := by
            simp only [agent_tick, htc]
            cases halert : alert r.st "error" "Agent tick failed."
                (.jobj [("error", .jstr r.exc.msg)]) env.now <;> simp [halert]
          rw [heq]
          exact hspec.1
  | null => exact traceFacts_nil env
  | jbool b => exact traceFacts_nil env
  | jint n => exact traceFacts_nil env
  | jstr s => exact traceFacts_nil env
  | jarr xs => exact traceFacts_nil env

/-! ### C2 -/

/-- C2: in every tick, `docker_restart` is invoked only when `ARMED_MODE`
is true and only for a container classified into one of the four roles
whose lower-cased `State` is `exited` or `dead`; with `ARMED_MODE` false
a tick issues no restart at all. -/
theorem agent_tick_restart_policy (env : Env) (loaded : JVal) :
    (env.armed = false → (agent_tick env loaded).2 = []) ∧
    (∀ call ∈ (agent_tick env loaded).2,
        env.armed = true ∧ ∃ cs c, env.listRes = Except.ok cs ∧
          call.role ∈ ["btc", "bch", "dgb", "miningcore"] ∧
          roleOf (classify cs) call.role = some c ∧
          c.Id = some call.cid ∧
          (lowerStr (c.State.getD "") = "exited" ∨
           lowerStr (c.State.getD "") = "dead")) :=
  ⟨(agent_tick_traceFacts env loaded).2.1, (agent_tick_traceFacts env loaded).2.2⟩

/-- An exited bitcoind container used by several witnesses. -/
def witBtcC : Container :=
  { Id := some "b1", Names := some ["/bitcoind"], Image := some "btc-img",
    State := some "exited", Status := none }

/-- An armed environment that lists a single exited bitcoind container. -/
def witEnvArmed : Env :=
  { armed := true, failsafe := true, allow := allowlistDefault,
    listRes := Except.ok [witBtcC], restartRes := fun _ => Except.ok (),
    now := 7 }

/-- C2 witness: the tick on `witEnvArmed` restarts exactly the `btc`
container, and the theorem certifies that call. -/
theorem agent_tick_restart_policy_witness :
    (⟨"btc", "b1"⟩ : RCall) ∈ (agent_tick witEnvArmed (.jobj defaultState)).2 ∧
    (witEnvArmed.armed = true ∧ ∃ cs c, witEnvArmed.listRes = Except.ok cs ∧
        (⟨"btc", "b1"⟩ : RCall).role ∈ ["btc", "bch", "dgb", "miningcore"] ∧
        roleOf (classify cs) (⟨"btc", "b1"⟩ : RCall).role = some c ∧
        c.Id = some (⟨"btc", "b1"⟩ : RCall).cid ∧
        (lowerStr (c.State.getD "") = "exited" ∨
         lowerStr (c.State.getD "") = "dead")) :=
  ⟨by decide,
   (agent_tick_restart_policy witEnvArmed (.jobj defaultState)).2
     ⟨"btc", "b1"⟩ (by decide)⟩

/-! ### C5 -/

/-- C5: when the container listing or a restart call raises, the tick
retries nothing (each role appears at most once in the restart trace, and
the trace ends at the failure), records exactly one error entry in the
state's alerts list, skips the rest of the tick (`last_run` is not
updated), and still saves the state. -/
theorem tick_error_logged_once (env : Env) (st0 : Dict) (r : Raised)
    (xs : List JVal)
    (hrun : tickCore env st0 = Except.error r)
    (hexc : (∃ e, r.exc = Exc.listFail e) ∨
      (∃ cid e, r.exc = Exc.restartFail cid e))
    (ha : listAt r.st "alerts" xs) :
    ∃ st', agent_tick env (.jobj st0) = (Except.ok (.jobj st'), r.tr) ∧
      getKey? st' "alerts" = some (.jarr (takeLast 199 xs ++
        [alertEntry env.now "error" "Agent tick failed."
          (.jobj [("error", .jstr r.exc.msg)])])) ∧
      getKey? st' "last_run" = getKey? st0 "last_run" ∧
      (r.tr.map RCall.role).Nodup := by
  obtain ⟨htrace, hframe, _⟩ := (tickCore_spec env st0).2 r hrun
  obtain ⟨st', halert, hget, _, _, _, hframeA⟩ :=
    alert_ringAfter r.st "error" "Agent tick failed."
      (.jobj [("error", .jstr r.exc.msg)]) env.now ha
  refine ⟨st', ?_, hget, ?_, ?_⟩
  · simp [agent_tick, hrun, halert]
  · rw [hframeA "last_run" (by decide), hframe "last_run" (by decide)]
  · exact htrace.1.nodup (by decide)

/-- An environment whose container listing fails. -/
def witEnvListFail : Env :=
  { armed := true, failsafe := true, allow := allowlistDefault,
    listRes := Except.error "conn refused",
    restartRes := fun _ => Except.ok (), now := 9 }

/-- The exception the failed listing raises on the default state. -/
def witRaised : Raised :=
  { exc := .listFail "conn refused", st := defaultState, tr := [] }

/-- C5 witness: a tick whose listing fails on the fresh default state. -/
theorem tick_error_logged_once_witness :
    tickCore witEnvListFail defaultState = Except.error witRaised ∧
    (∃ st', agent_tick witEnvListFail (.jobj defaultState) =
        (Except.ok (.jobj st'), witRaised.tr) ∧
      getKey? st' "alerts" = some (.jarr (takeLast 199 [] ++
        [alertEntry witEnvListFail.now "error" "Agent tick failed."
          (.jobj [("error", .jstr witRaised.exc.msg)])])) ∧
      getKey? st' "last_run" = getKey? defaultState "last_run" ∧
      (witRaised.tr.map RCall.role).Nodup) :=
  ⟨rfl,
   tick_error_logged_once witEnvListFail defaultState witRaised []
     rfl (Or.inl ⟨"conn refused", rfl⟩) (Or.inl rfl)⟩

/-! ### C6 -/

/-- Whether the tick result saved a state (`save_state` was reached). -/
def didSave (p : (Except String JVal) × Trace) : Bool :=
  match p.1 with
  | Except.ok _ => true
  | Except.error _ => false

/-- A loaded state that is a JSON object but whose `alerts` key holds a
number instead of a list. -/
def cexBadState : Dict :=
  [("last_run", .null), ("intel", .jobj []), ("actions", .jarr []),
   ("alerts", .jint 5)]

/-- C6 counterexample: a tick that loads the (object-shaped) state whose
`alerts` value is not a list and whose container listing fails raises out
of the `except` handler, so it does not write the state back — the claim
fails without a well-shapedness proviso. -/
theorem tick_error_no_save_cex :
    load_state (some (some (.jobj cexBadState))) = .jobj cexBadState ∧
    didSave (agent_tick witEnvListFail (.jobj cexBadState)) = false :=
  ⟨rfl, rfl⟩

/-- C6 (amended): every tick loads the full state at its start and writes
the full state back at its end, on the success and the error path alike,
provided the loaded state is a JSON object whose `alerts` entry (if
present) holds a list; the saved state agrees with the loaded one on
every top-level key other than `last_run`, `intel`, `actions` and
`alerts`. -/
theorem tick_reads_writes_frame (env : Env) (file : FileContent) (st0 : Dict)
    (hload : load_state file = .jobj st0)
    (hsh : alertsShaped st0) :
    ∃ st' tr, agent_tick env (load_state file) = (Except.ok (.jobj st'), tr) ∧
      ∀ k, k ∉ ["last_run", "intel", "actions", "alerts"] →
        getKey? st' k = getKey? st0 k := by
  rw [hload]
  cases htc : tickCore env st0 with
  | ok pr =>
      obtain ⟨st', tr⟩ := pr
      obtain ⟨_, hframe, _⟩ := (tickCore_spec env st0).1 st' tr htc
      exact ⟨st', tr, by simp [agent_tick, htc], hframe⟩
  | error r =>
      obtain ⟨_, hframe, hshaped⟩ := (tickCore_spec env st0).2 r htc
      obtain ⟨xs, hxs⟩ := hshaped hsh
      obtain ⟨st', halert, _, _, _, _, hframeA⟩ :=
        alert_ringAfter r.st "error" "Agent tick failed."
          (.jobj [("error", .jstr r.exc.msg)]) env.now hxs
      refine ⟨st', r.tr, by simp [agent_tick, htc, halert], ?_⟩
      intro k hk
      have hk' := hk
      simp only [List.mem_cons, List.not_mem_nil, or_false] at hk'
      push_neg at hk'
      rw [hframeA k hk'.2.2.2]
      refine hframe k ?_
      simp only [List.mem_cons, List.not_mem_nil, or_false]
      push_neg
      exact ⟨hk'.2.1, hk'.2.2.1, hk'.2.2.2⟩

/-- A default state carrying an extra operator-owned key. -/
def witFrameState : Dict :=
  defaultState ++ [("operator_note", .jstr "keep")]

/-- C6 witness: an ordinary armed tick on a state carrying an extra
`operator_note` key preserves that key. -/
theorem tick_reads_writes_frame_witness :
    load_state (some (some (.jobj witFrameState))) = .jobj witFrameState ∧
    alertsShaped witFrameState ∧
    (∃ st' tr, agent_tick witEnvArmed
        (load_state (some (some (.jobj witFrameState)))) =
        (Except.ok (.jobj st'), tr) ∧
      ∀ k, k ∉ ["last_run", "intel", "actions", "alerts"] →
        getKey? st' k = getKey? witFrameState k) :=
  ⟨rfl, ⟨[], Or.inl rfl⟩,
   tick_reads_writes_frame witEnvArmed (some (some (.jobj witFrameState)))
     witFrameState rfl ⟨[], Or.inl rfl⟩⟩

/-! ### C1 -/

theorem runRoles_append (env : Env) (p1 p2 : List (String × Option Container)) :
    ∀ st tr, runRoles env (p1 ++ p2) st tr =
      match runRoles env p1 st tr with
      | Except.ok (st', tr') => runRoles env p2 st' tr'
      | Except.error r => Except.error r := by
  induction p1 with
  | nil =>
      intro st tr
      simp [runRoles]
  | cons p rest ih =>
      intro st tr
      obtain ⟨k, c?⟩ := p
      simp only [List.cons_append, runRoles]
      cases hstep : roleStep env st tr k c? with
      | error r => simp [hstep]
      | ok pr =>
          obtain ⟨st1, tr1⟩ := pr
          simp [hstep, ih st1 tr1]

theorem roleStep_miningcore_failsafe (env : Env) (st : Dict) (tr : Trace)
    (c : Container) {xs : List JVal}
    (hfs : env.failsafe = true) (hal : has_allowlist env.allow = false)
    (hstate : lowerStr (c.State.getD "") = "exited" ∨
      lowerStr (c.State.getD "") = "dead")
    (hsh : listAt st "alerts" xs) :
    ∃ st', roleStep env st tr "miningcore" (some c) = Except.ok (st', tr) ∧
      getKey? st' "alerts" = some (.jarr (takeLast 199 xs ++
        [alertEntry env.now "critical"
          "MiningCore present but allowlist not set. Failsafe posture active."
          (.jobj [("role", .jstr "miningcore")])])) ∧
      ∀ k, k ≠ "alerts" → getKey? st' k = getKey? st k := by
  obtain ⟨st', halert, hget, _, _, _, hframe⟩ :=
    alert_ringAfter st "critical"
      "MiningCore present but allowlist not set. Failsafe posture active."
      (.jobj [("role", .jstr "miningcore")]) env.now hsh
  refine ⟨st', ?_, hget, hframe⟩
  simp [roleStep, if_pos hstate, hfs, hal, halert]

/-- C1 (amended): in a tick where `ARMED_MODE` and `FAILSAFE_STOP_MINING`
are true, the allowlist has no allowed address, the classified miningcore
container has State `exited`/`dead`, and the tick reaches the miningcore
step without an exception (listing and both intel stores succeeded and
the earlier `btc`/`bch`/`dgb` steps completed), the tick never calls
`docker_restart` for the miningcore role and instead appends a critical
alert to the state's alerts list, then saves. -/
theorem miningcore_failsafe_no_restart (env : Env)
    (st0 st1 st2 st3 : Dict) (cs : List Container) (tr3 : Trace)
    (c : Container) (xs : List JVal)
    (harm : env.armed = true) (hfs : env.failsafe = true)
    (hal : has_allowlist env.allow = false)
    (hlist : env.listRes = Except.ok cs)
    (hmc : (classify cs).miningcore = some c)
    (hstate : lowerStr (c.State.getD "") = "exited" ∨
      lowerStr (c.State.getD "") = "dead")
    (hi1 : intelSet st0 "containers" (containersIntel cs) = Except.ok st1)
    (hi2 : intelSet st1 "roles" (rolesIntel (classify cs)) = Except.ok st2)
    (hpre : runRoles env [("btc", (classify cs).btc), ("bch", (classify cs).bch),
        ("dgb", (classify cs).dgb)] st2 [] = Except.ok (st3, tr3))
    (hsh : listAt st3 "alerts" xs) :
    ∃ st4, agent_tick env (.jobj st0) =
        (Except.ok (.jobj (setKey st4 "last_run" (.jint env.now))), tr3) ∧
      (∀ call ∈ tr3, call.role ≠ "miningcore") ∧
      getKey? st4 "alerts" = some (.jarr (takeLast 199 xs ++
        [alertEntry env.now "critical"
          "MiningCore present but allowlist not set. Failsafe posture active."
          (.jobj [("role", .jstr "miningcore")])])) ∧
      getKey? (setKey st4 "last_run" (.jint env.now)) "alerts" =
        getKey? st4 "alerts" := by
  obtain ⟨st4, hstep, hget, hframe⟩ :=
    roleStep_miningcore_failsafe env st3 tr3 c hfs hal hstate hsh
  have hsplit : rolePairs (classify cs) =
      [("btc", (classify cs).btc), ("bch", (classify cs).bch),
       ("dgb", (classify cs).dgb)] ++
      [("miningcore", (classify cs).miningcore)] := rfl
  have hrunAll : runRoles env (rolePairs (classify cs)) st2 [] =
      Except.ok (st4, tr3) := by
    rw [hsplit, runRoles_append, hpre, hmc]
    simp only [runRoles, hstep]
  have htc : tickCore env st0 =
      Except.ok (setKey st4 "last_run" (.jint env.now), tr3) := by
    simp only [tickCore, hlist, hi1, hi2, harm, if_true, hrunAll]
  refine ⟨st4, by simp [agent_tick, htc], ?_, hget,
    getKey?_setKey_ne st4 (by decide) _⟩
  obtain ⟨⟨ex3, htr, hmem, hsub⟩, _, _⟩ :=
    (runRoles_spec env [("btc", (classify cs).btc), ("bch", (classify cs).bch),
      ("dgb", (classify cs).dgb)] st2 []).1 st3 tr3 hpre
  rw [List.nil_append] at htr
  subst htr
  intro call hcall heq
  have hmemmap : call.role ∈ tr3.map RCall.role :=
    List.mem_map_of_mem _ hcall
  have hmem3 := hsub.subset hmemmap
  rw [heq] at hmem3
  simp at hmem3

/-- An exited miningcore container. -/
def mcWit : Container :=
  { Id := some "m1", Names := some ["/miningcore"], Image := some "mc-img",
    State := some "exited", Status := none }

/-- Armed, failsafe on, empty allowlist, one exited miningcore container. -/
def envC1 : Env :=
  { armed := true, failsafe := true, allow := allowlistDefault,
    listRes := Except.ok [mcWit], restartRes := fun _ => Except.ok (),
    now := 5 }

/-- The state after the first intel store in the C1 witness tick. -/
def c1St1 : Dict :=
  [("last_run", .null),
   ("intel", .jobj [("containers", containersIntel [mcWit])]),
   ("actions", .jarr []), ("alerts", .jarr [])]

/-- The state after the second intel store in the C1 witness tick. -/
def c1St2 : Dict :=
  [("last_run", .null),
   ("intel", .jobj [("containers", containersIntel [mcWit]),
                    ("roles", rolesIntel (classify [mcWit]))]),
   ("actions", .jarr []), ("alerts", .jarr [])]

/-- C1 witness: the failsafe tick at a concrete environment. -/
theorem miningcore_failsafe_no_restart_witness :
    envC1.armed = true ∧ envC1.failsafe = true ∧
    has_allowlist envC1.allow = false ∧
    (classify [mcWit]).miningcore = some mcWit ∧
    (∃ st4, agent_tick envC1 (.jobj defaultState) =
        (Except.ok (.jobj (setKey st4 "last_run" (.jint envC1.now))), []) ∧
      (∀ call ∈ ([] : Trace), call.role ≠ "miningcore") ∧
      getKey? st4 "alerts" = some (.jarr (takeLast 199 [] ++
        [alertEntry envC1.now "critical"
          "MiningCore present but allowlist not set. Failsafe posture active."
          (.jobj [("role", .jstr "miningcore")])])) ∧
      getKey? (setKey st4 "last_run" (.jint envC1.now)) "alerts" =
        getKey? st4 "alerts") :=
  ⟨rfl, rfl, by decide, by decide,
   miningcore_failsafe_no_restart envC1 defaultState c1St1 c1St2 c1St2
     [mcWit] [] mcWit [] rfl rfl (by decide) rfl (by decide) (by decide)
     rfl rfl rfl (Or.inl rfl)⟩

/-- Whether a log entry is a critical-level alert. -/
def isCriticalEntry (e : JVal) : Bool :=
  match e with
  | .jobj kvs =>
      match getKey? kvs "level" with
      | some (.jstr l) => l == "critical"
      | _ => false
  | _ => false

/-- Whether the tick saved a state whose alerts list contains a
critical-level entry. -/
def savedCritical (p : (Except String JVal) × Trace) : Bool :=
  match p.1 with
  | Except.ok (.jobj st) =>
      match getKey? st "alerts" with
      | some (.jarr xs) => xs.any isCriticalEntry
      | _ => false
  | _ => false

/-- An exited bitcoind container whose restart will fail. -/
def cexBtcC : Container :=
  { Id := some "b1", Names := some ["/bitcoind"], Image := some "btc-img",
    State := some "exited", Status := none }

/-- Armed, failsafe on, empty allowlist — but every restart call raises. -/
def cexC1Env : Env :=
  { armed := true, failsafe := true, allow := allowlistDefault,
    listRes := Except.ok [cexBtcC, mcWit],
    restartRes := fun _ => Except.error "boom", now := 0 }

/-- C1 counterexample: with ARMED_MODE and FAILSAFE_STOP_MINING true, no
allowlist, and the classified miningcore container exited, a tick whose
earlier `btc` restart raises never reaches the miningcore step: the saved
state contains no critical alert (only the error alert), refuting the
claim as stated; no restart was issued for the miningcore role. -/
theorem miningcore_failsafe_cex :
    cexC1Env.armed = true ∧ cexC1Env.failsafe = true ∧
    has_allowlist cexC1Env.allow = false ∧
    (classify [cexBtcC, mcWit]).miningcore = some mcWit ∧
    lowerStr (mcWit.State.getD "") = "exited" ∧
    (agent_tick cexC1Env (.jobj defaultState)).2 = [⟨"btc", "b1"⟩] ∧
    didSave (agent_tick cexC1Env (.jobj defaultState)) = true ∧
    savedCritical (agent_tick cexC1Env (.jobj defaultState)) = false := by
  decide

end Wiktac
